import Mathlib

/-!
Verification development for the lanmon LAN discovery system: a shallow
embedding of the beacon authenticator (internal/beacon/hmac.go), the payload
codec contract, the packet validators (internal/listener/listener.go and
internal/discovery/discovery.go) and the host registry
(internal/store/store.go), together with theorems settling the frozen claims
about them.
-/

namespace Lanmon

/-- Byte strings are modelled as lists of natural numbers, one entry per byte. -/
abbrev Bytes := List Nat

/-! ## Hex decoding and key derivation (internal/beacon/hmac.go) -/

/-- Translation of the hex digit table of encoding/hex: digits 0-9, a-f, A-F. -/
def fromHexChar (c : Nat) : Option Nat :=
  if 48 ≤ c ∧ c ≤ 57 then some (c - 48)
  else if 97 ≤ c ∧ c ≤ 102 then some (c - 97 + 10)
  else if 65 ≤ c ∧ c ≤ 70 then some (c - 65 + 10)
  else none

/-- Translation of encoding/hex Decode as reached through DecodeString: hex
pairs are decoded left to right, decoding stops at the first invalid character
or at a trailing odd character, and the bytes decoded before the error are
returned (the error itself is discarded by ComputeHMAC). -/
def hexDecodePrefix : Bytes → Bytes
  | a :: b :: rest =>
    match fromHexChar a, fromHexChar b with
    | some x, some y => (16 * x + y) :: hexDecodePrefix rest
    | _, _ => []
  | _ => []

/-- Translation of the key derivation inside ComputeHMAC (hmac.go): the hex
decode error is ignored, and the raw secret bytes are used only when the
decoded byte string is empty. -/
def deriveKey (secret : Bytes) : Bytes :=
  let key := hexDecodePrefix secret
  if key = [] then secret else key

/-- Claim-side notion of a valid hex encoding, from the words of the spec: an
even number of characters, all from the hex alphabet. -/
def validHex (s : Bytes) : Bool :=
  s.length % 2 == 0 && s.all (fun c => (fromHexChar c).isSome)

/-- Claim-side key derivation, from the words of the claim: the hex-decoded
raw bytes when the secret is a valid hex encoding, the raw secret bytes for
any secret that is not valid hex. -/
def specKeyDerivation (s : Bytes) : Bytes :=
  if validHex s then hexDecodePrefix s else s

/-! ## Spec-modelled hash and the authenticator -/

/-- Big endian encoding of a natural number into a fixed number of bytes. -/
def natToBytes : Nat → Nat → Bytes
  | 0, _ => []
  | w + 1, n => natToBytes w (n / 256) ++ [n % 256]

/-- Big endian decoding of a byte list into a natural number. -/
def bytesToNat (bs : Bytes) : Nat :=
  bs.foldl (fun acc b => acc * 256 + b) 0

/-- Modelled from the spec: the 256-bit-output hash function used by the
Authenticator (crypto/sha256, which is not under src/) is modelled as a
deterministic mixing fold producing 32 bytes; every claim proved about it uses
only determinism and the fixed 32-byte output length. -/
def specHash (msg : Bytes) : Bytes :=
  natToBytes 32 (msg.foldl (fun acc b => (acc * 131 + b + 7) % (2 ^ 256)) 17)

/-- Modelled from the spec: the keyed-hash construction of the Authenticator
(the HMAC construction of crypto/hmac, not under src/), with the standard
64-byte block, inner pad byte 54 and outer pad byte 92. -/
def hmacModel (key msg : Bytes) : Bytes :=
  let k0 := if 64 < key.length then specHash key else key
  let kPad := k0 ++ List.replicate (64 - k0.length) 0
  specHash ((kPad.map (fun b => b ^^^ 92)) ++ specHash ((kPad.map (fun b => b ^^^ 54)) ++ msg))

/-- Constant HMACSize from hmac.go: length of the signature in bytes. -/
def HMACSize : Nat := 32

/-- Translation of ComputeHMAC (hmac.go) over the modelled hash: the secret is
run through the hex-decoding key derivation and the result keys the HMAC of the
data. -/
def ComputeHMAC (data : Bytes) (secret : Bytes) : Bytes :=
  hmacModel (deriveKey secret) data

/-- Translation of VerifyHMAC (hmac.go): recompute the expected signature and
compare. The constant-time comparison hmac.Equal returns true exactly on equal
byte strings (false on a length mismatch), so it is modelled as boolean
equality of byte lists. -/
def VerifyHMAC (sig data : Bytes) (secret : Bytes) : Bool :=
  sig == ComputeHMAC data secret

/-- Flipping the bit at (big endian bit) position i of a byte string. -/
def flipBitAt (bs : Bytes) (i : Nat) : Bytes :=
  bs.set (i / 8) (bs.getD (i / 8) 0 ^^^ 2 ^ (i % 8))

/-! ## Beacon payload (internal/beacon/payload.go)

Go strings are byte slices, so every textual field is modelled as a byte list.
The float64 field MemoryGB is carried by its 64-bit pattern, which is all the
codec claims need (the codec transports bits and performs no arithmetic). -/

/-- Translation of OSInfo (payload.go): operating system metadata. -/
structure OSInfo where
  name : Bytes
  kernel : Bytes
  arch : Bytes
  deriving DecidableEq, Repr

/-- Translation of HWInfo (payload.go): hardware metadata; cpuCores and
diskCount are Go ints (64 bit signed), memoryGB is the 64-bit pattern of the
float64 field. -/
structure HWInfo where
  cpuModel : Bytes
  cpuCores : Int
  memoryGB : Nat
  diskCount : Int
  deriving DecidableEq, Repr

/-- Translation of BeaconPayload (payload.go): the datum broadcast by each
agent; version is a Go uint8, timestamp a Go int64 of Unix seconds. -/
structure BeaconPayload where
  version : Nat
  timestamp : Int
  macAddress : Bytes
  ipAddress : Bytes
  hostname : Bytes
  os : OSInfo
  hardware : HWInfo
  deriving DecidableEq, Repr

/-! ## Payload codec, modelled from the spec

The serializer used by the source (the msgpack library) is not under src/;
following the spec, the codec is deterministic field for field, encodes the
fields in the order given in the wire format section, uses fixed-width
encodings for the numeric fields and length prefixes for the
length-unconstrained textual fields, and decoding malformed input fails with a
decode error (modelled as the none case) instead of aborting. -/

/-- Signed 64-bit integers are encoded by their value modulo 2 ^ 64, big
endian. -/
def encInt64 (i : Int) : Bytes :=
  natToBytes 8 (i % (2 ^ 64)).toNat

/-- Decoding of a signed 64-bit integer from its 8-byte pattern. -/
def decInt64 (n : Nat) : Int :=
  if n < 2 ^ 63 then (n : Int) else (n : Int) - 2 ^ 64

/-- Modelled from the spec: textual fields are length prefixed (4 bytes, big
endian) followed by the raw bytes. -/
def encBytesField (s : Bytes) : Bytes :=
  natToBytes 4 s.length ++ s

/-- Modelled from the spec: encoding of a full BeaconPayload, fields in wire
format order. -/
def encodePayload (p : BeaconPayload) : Bytes :=
  natToBytes 1 p.version ++
  encInt64 p.timestamp ++
  encBytesField p.macAddress ++
  encBytesField p.ipAddress ++
  encBytesField p.hostname ++
  encBytesField p.os.name ++
  encBytesField p.os.kernel ++
  encBytesField p.os.arch ++
  encBytesField p.hardware.cpuModel ++
  encInt64 p.hardware.cpuCores ++
  natToBytes 8 p.hardware.memoryGB ++
  encInt64 p.hardware.diskCount

/-- Reading a fixed number of bytes from the head of the input fails when the
input is too short. -/
def readChunk (k : Nat) (bs : Bytes) : Option (Bytes × Bytes) :=
  if k ≤ bs.length then some (bs.take k, bs.drop k) else none

/-- Reading a fixed-width big endian natural number. -/
def readNat (w : Nat) (bs : Bytes) : Option (Nat × Bytes) :=
  (readChunk w bs).map (fun c => (bytesToNat c.1, c.2))

/-- Reading a length-prefixed byte field. -/
def readBytesField (bs : Bytes) : Option (Bytes × Bytes) :=
  (readNat 4 bs).bind (fun ln => readChunk ln.1 ln.2)

/-- Modelled from the spec: decoding of a BeaconPayload; any malformed or
truncated input, and any trailing garbage, yields none (the DecodeError case). -/
def decodePayload (bs : Bytes) : Option BeaconPayload :=
  (readNat 1 bs).bind fun v =>
  (readNat 8 v.2).bind fun ts =>
  (readBytesField ts.2).bind fun mac =>
  (readBytesField mac.2).bind fun ip =>
  (readBytesField ip.2).bind fun hn =>
  (readBytesField hn.2).bind fun osn =>
  (readBytesField osn.2).bind fun osk =>
  (readBytesField osk.2).bind fun osa =>
  (readBytesField osa.2).bind fun cpu =>
  (readNat 8 cpu.2).bind fun cores =>
  (readNat 8 cores.2).bind fun mem =>
  (readNat 8 mem.2).bind fun dsk =>
  if dsk.2 = [] then
    some ⟨v.1, decInt64 ts.1, mac.1, ip.1, hn.1,
      ⟨osn.1, osk.1, osa.1⟩,
      ⟨cpu.1, decInt64 cores.1, mem.1, decInt64 dsk.1⟩⟩
  else none

/-- Valid payloads: every field fits its declared wire width (Go guarantees
this by construction: strings are below 2 ^ 32 bytes for the 4-byte length
prefix, uint8 and int64 fields are within range). -/
def validPayload (p : BeaconPayload) : Prop :=
  p.version < 256 ∧
  -(2 ^ 63) ≤ p.timestamp ∧ p.timestamp < 2 ^ 63 ∧
  p.macAddress.length < 2 ^ 32 ∧
  p.ipAddress.length < 2 ^ 32 ∧
  p.hostname.length < 2 ^ 32 ∧
  p.os.name.length < 2 ^ 32 ∧
  p.os.kernel.length < 2 ^ 32 ∧
  p.os.arch.length < 2 ^ 32 ∧
  p.hardware.cpuModel.length < 2 ^ 32 ∧
  -(2 ^ 63) ≤ p.hardware.cpuCores ∧ p.hardware.cpuCores < 2 ^ 63 ∧
  p.hardware.memoryGB < 2 ^ 64 ∧
  -(2 ^ 63) ≤ p.hardware.diskCount ∧ p.hardware.diskCount < 2 ^ 63

instance (p : BeaconPayload) : Decidable (validPayload p) := by
  unfold validPayload; infer_instance

/-! ## Host registry (internal/store/store.go)

The BoltDB hosts bucket is a map from the MAC address string to a serialized
HostRecord; it is modelled as an association list of key and record pairs (one
entry per key), with bucket Get as first-match lookup and bucket Put as
replace-or-append. Every store operation runs under the store mutex and a
BoltDB transaction, so each is modelled as one atomic function on the whole
registry value; wall-clock reads of time.Now are passed in as an explicit
parameter. -/

/-- Translation of HostRecord (store.go). The SSHKeyPushedAt pointer is an
Option; timestamps are Unix seconds. -/
structure HostRecord where
  beacon : BeaconPayload
  firstSeen : Int
  lastSeen : Int
  packetCount : Nat
  sshKeyPushed : Bool
  sshKeyPushedAt : Option Int
  active : Bool
  deriving DecidableEq, Repr

/-- The registry: the contents of the hosts bucket. -/
abbrev Registry := List (Bytes × HostRecord)

/-- Bucket Get: first record stored under the key. -/
def lookupRec (mac : Bytes) : Registry → Option HostRecord
  | [] => none
  | (k, r) :: rest => if k = mac then some r else lookupRec mac rest

/-- Bucket Put: replace the record under the key, appending when absent. -/
def putRec (mac : Bytes) (v : HostRecord) : Registry → Registry
  | [] => [(mac, v)]
  | (k, r) :: rest => if k = mac then (mac, v) :: rest else (k, r) :: putRec mac v rest

/-- Translation of Store.Upsert (store.go): keyed by the payload MAC address;
an existing record gets the new beacon snapshot, LastSeen = now, PacketCount
incremented and Active set; an absent key creates a record with
FirstSeen = LastSeen = now, PacketCount 1, Active true and the zero values
false and nil for the SSH key fields. -/
def upsert (reg : Registry) (p : BeaconPayload) (now : Int) : Registry :=
  match lookupRec p.macAddress reg with
  | some r =>
    putRec p.macAddress
      { r with beacon := p, lastSeen := now, packetCount := r.packetCount + 1,
               active := true } reg
  | none =>
    putRec p.macAddress
      { beacon := p, firstSeen := now, lastSeen := now, packetCount := 1,
        sshKeyPushed := false, sshKeyPushedAt := none, active := true } reg

/-- Translation of Store.MarkKeyPushed (store.go): a missing key fails with the
not-found error and the transaction writes nothing; an existing record gets
SSHKeyPushed = true and SSHKeyPushedAt = now. -/
def markKeyPushed (reg : Registry) (mac : Bytes) (now : Int) :
    Except String Registry :=
  match lookupRec mac reg with
  | none => .error "host not found"
  | some r =>
    .ok (putRec mac { r with sshKeyPushed := true, sshKeyPushedAt := some now } reg)

/-- Per-record effect of Store.expireStaleHosts (store.go): with
cutoff = now - threshold, a record that is Active and whose LastSeen is
strictly before the cutoff is written back with Active = false; any other
record is untouched. -/
def expireRecord (now threshold : Int) (r : HostRecord) : HostRecord :=
  if r.active ∧ r.lastSeen < now - threshold then { r with active := false } else r

/-- Translation of Store.expireStaleHosts (store.go): the sweep applies the
per-record rule to every record of the bucket. -/
def expireStaleHosts (reg : Registry) (now threshold : Int) : Registry :=
  reg.map (fun e => (e.1, expireRecord now threshold e.2))

/-- Claim-side per-record sweep rule, from the words of the spec: mark
Inactive exactly the Active records with now - LastSeen at least the
threshold. -/
def specExpireRecord (now threshold : Int) (r : HostRecord) : HostRecord :=
  if r.active ∧ threshold ≤ now - r.lastSeen then { r with active := false } else r

/-- Claim-side sweep, from the words of the spec. -/
def specExpire (reg : Registry) (now threshold : Int) : Registry :=
  reg.map (fun e => (e.1, specExpireRecord now threshold e.2))

/-- A registry operation of the core: an accepted upsert, a mark-key-pushed
command, or an expiry sweep. -/
inductive StoreOp where
  | upsertOp (p : BeaconPayload) (now : Int)
  | markKeyOp (mac : Bytes) (now : Int)
  | expireOp (now threshold : Int)
  deriving Repr

/-- Effect of one operation on the registry; a failing MarkKeyPushed aborts
its transaction and leaves the registry unchanged. -/
def applyOp (reg : Registry) : StoreOp → Registry
  | .upsertOp p now => upsert reg p now
  | .markKeyOp mac now =>
    match markKeyPushed reg mac now with
    | .ok reg2 => reg2
    | .error _ => reg
  | .expireOp now threshold => expireStaleHosts reg now threshold

/-- Effect of a sequence of operations. -/
def applyOps (reg : Registry) (ops : List StoreOp) : Registry :=
  ops.foldl applyOp reg

/-- Whether an operation is an upsert keyed at the given MAC. -/
def isUpsertFor (op : StoreOp) (mac : Bytes) : Bool :=
  match op with
  | .upsertOp p _ => p.macAddress == mac
  | _ => false

/-- A run of consecutive upserts, each event a payload with its arrival time. -/
def upsertRun (reg : Registry) (events : List (BeaconPayload × Int)) : Registry :=
  events.foldl (fun rg e => upsert rg e.1 e.2) reg

/-! ## Packet validation (internal/listener/listener.go and
internal/discovery/discovery.go)

Both handlePacket functions are silent-drop pipelines; the result type records
which check rejected the datagram (each rejection is a plain return, never an
error to the caller). Decoding uses the spec-modelled codec in place of the
msgpack library. The timestamp guard compares the absolute clock difference
against the constant timestampMaxAge = 60; the float64 conversion around the
int64 subtraction in the source never changes the truth of that comparison, so
it is modelled over the integers directly. -/

/-- Constant timestampMaxAge shared by both receive paths. -/
def timestampMaxAge : Int := 60

/-- Constant maxPacketsPerMin from listener.go. -/
def maxPacketsPerMin : Nat := 5

/-- Outcome of a handlePacket run. -/
inductive HandleResult where
  | dropTooSmall
  | dropBadSig
  | dropDecode
  | dropSelf
  | dropStale
  | accepted (p : BeaconPayload)
  deriving DecidableEq, Repr

namespace Listener

/-- Translation of handlePacket (listener.go): size guard, HMAC verification of
the split signature and body, decode, then the symmetric freshness guard; the
listener path has no self-origin check. -/
def handlePacket (packet : Bytes) (now : Int) (secret : Bytes) : HandleResult :=
  if packet.length ≤ HMACSize then .dropTooSmall
  else if ¬ VerifyHMAC (packet.take HMACSize) (packet.drop HMACSize) secret then
    .dropBadSig
  else
    match decodePayload (packet.drop HMACSize) with
    | none => .dropDecode
    | some payload =>
      if timestampMaxAge < |now - payload.timestamp| then .dropStale
      else .accepted payload

/-- Translation of the per-datagram path of StartListener (listener.go): the
current receive loop hands every datagram read from the socket straight to
handlePacket, whose accepted payloads are upserted; the rateTracker structure
and the maxPacketsPerMin constant declared in the file are never consulted by
the loop. -/
def receiveStep (reg : Registry) (packet : Bytes) (now : Int) (secret : Bytes) :
    Registry :=
  match handlePacket packet now secret with
  | .accepted p => upsert reg p now
  | _ => reg

end Listener

namespace Discovery

/-- Translation of handlePacket (discovery.go): size guard, HMAC verification,
decode, then the self-origin suppression against the local MAC, and only after
it the symmetric freshness guard. -/
def handlePacket (packet : Bytes) (now : Int) (selfMAC : Bytes) (secret : Bytes) :
    HandleResult :=
  if packet.length ≤ HMACSize then .dropTooSmall
  else if ¬ VerifyHMAC (packet.take HMACSize) (packet.drop HMACSize) secret then
    .dropBadSig
  else
    match decodePayload (packet.drop HMACSize) with
    | none => .dropDecode
    | some payload =>
      if payload.macAddress = selfMAC then .dropSelf
      else if timestampMaxAge < |now - payload.timestamp| then .dropStale
      else .accepted payload

end Discovery

/-- Claim-side validator, from the words of the claim: the five checks in the
order size, signature, decode, freshness, self-origin. -/
def claimValidator (packet : Bytes) (now : Int) (selfMAC : Bytes) (secret : Bytes) :
    HandleResult :=
  if packet.length ≤ HMACSize then .dropTooSmall
  else if ¬ VerifyHMAC (packet.take HMACSize) (packet.drop HMACSize) secret then
    .dropBadSig
  else
    match decodePayload (packet.drop HMACSize) with
    | none => .dropDecode
    | some payload =>
      if timestampMaxAge < |now - payload.timestamp| then .dropStale
      else if payload.macAddress = selfMAC then .dropSelf
      else .accepted payload

/-- Amended validator for the discovery path: the same five short-circuiting
checks, with the self-origin suppression applied before the freshness bound. -/
def amendedValidator (packet : Bytes) (now : Int) (selfMAC : Bytes) (secret : Bytes) :
    HandleResult :=
  if packet.length ≤ HMACSize then .dropTooSmall
  else if ¬ VerifyHMAC (packet.take HMACSize) (packet.drop HMACSize) secret then
    .dropBadSig
  else
    match decodePayload (packet.drop HMACSize) with
    | none => .dropDecode
    | some payload =>
      if payload.macAddress = selfMAC then .dropSelf
      else if timestampMaxAge < |now - payload.timestamp| then .dropStale
      else .accepted payload

/-! ## Concrete fixtures for counterexamples and witnesses -/

/-- A concrete well-formed payload. -/
def samplePayload : BeaconPayload :=
  { version := 1, timestamp := 100,
    macAddress := [170, 187], ipAddress := [10, 0, 0, 5], hostname := [104, 97],
    os := { name := [117], kernel := [53], arch := [97] },
    hardware := { cpuModel := [99], cpuCores := 4, memoryGB := 16, diskCount := 1 } }

/-- A concrete shared secret (one byte, not hex). -/
def sampleSecret : Bytes := [115]

/-- The encoded sample payload. -/
def sampleData : Bytes := encodePayload samplePayload

/-- A correctly signed wire packet for the sample payload. -/
def samplePacket : Bytes := ComputeHMAC sampleData sampleSecret ++ sampleData

/-- The sample payload with a stale timestamp, sharing the sample MAC. -/
def stalePayload : BeaconPayload := { samplePayload with timestamp := 0 }

/-- The encoded stale payload. -/
def staleData : Bytes := encodePayload stalePayload

/-- A correctly signed wire packet for the stale payload. -/
def stalePacket : Bytes := ComputeHMAC staleData sampleSecret ++ staleData

/-- The registry resulting from the current listener receive path processing
six copies of the same valid datagram from one source within one minute. -/
def regSix : Registry :=
  Listener.receiveStep
    (Listener.receiveStep
      (Listener.receiveStep
        (Listener.receiveStep
          (Listener.receiveStep
            (Listener.receiveStep [] samplePacket 100 sampleSecret)
            samplePacket 100 sampleSecret)
          samplePacket 100 sampleSecret)
        samplePacket 100 sampleSecret)
      samplePacket 100 sampleSecret)
    samplePacket 100 sampleSecret

/-- A concrete host record, Active with LastSeen = 100. -/
def sampleRecord : HostRecord :=
  { beacon := samplePayload, firstSeen := 50, lastSeen := 100, packetCount := 3,
    sshKeyPushed := false, sshKeyPushedAt := none, active := true }

/-- A one-record registry holding sampleRecord under key [1]. -/
def regOne : Registry := [([1], sampleRecord)]

/-- A one-record registry holding sampleRecord under the sample MAC. -/
def regMac : Registry := [([170, 187], sampleRecord)]

/-- A two-record registry for frame conditions. -/
def regTwo : Registry :=
  [([1], sampleRecord), ([2], { sampleRecord with lastSeen := 70, packetCount := 9 })]

/-! ## Helper lemmas about the authenticator -/

theorem natToBytes_length (w n : Nat) : (natToBytes w n).length = w := by
  induction w generalizing n with
  | zero => rfl
  | succ w ih => simp [natToBytes, ih]

theorem specHash_length (msg : Bytes) : (specHash msg).length = 32 := by
  simp [specHash, natToBytes_length]

theorem computeHMAC_length (data secret : Bytes) :
    (ComputeHMAC data secret).length = 32 := by
  simp [ComputeHMAC, hmacModel, specHash_length]

theorem verifyHMAC_computeHMAC (data secret : Bytes) :
    VerifyHMAC (ComputeHMAC data secret) data secret = true := by
  simp [VerifyHMAC]

theorem verifyHMAC_ne (sig data secret : Bytes) (h : sig ≠ ComputeHMAC data secret) :
    VerifyHMAC sig data secret = false := by
  simp [VerifyHMAC, h]

theorem xor_pow_ne (b r : Nat) : b ^^^ 2 ^ r ≠ b := by
  intro he
  have h3 : b ^^^ (b ^^^ 2 ^ r) = b ^^^ b := by rw [he]
  rw [← Nat.xor_assoc, Nat.xor_self, Nat.zero_xor] at h3
  exact absurd h3 (by positivity)

theorem flipBitAt_ne (L : Bytes) (i : Nat) (h : i / 8 < L.length) :
    flipBitAt L i ≠ L := by
  intro he
  have h1 : (L.set (i / 8) (L.getD (i / 8) 0 ^^^ 2 ^ (i % 8)))[i / 8]? = L[i / 8]? := by
    rw [flipBitAt] at he
    rw [he]
  rw [List.getElem?_set_eq_of_lt _ (by simpa using h), List.getElem?_eq_getElem h] at h1
  have hgd : L.getD (i / 8) 0 = L[i / 8] := by
    simp [List.getD_eq_getElem?_getD, List.getElem?_eq_getElem h]
  rw [hgd] at h1
  exact xor_pow_ne L[i / 8] (i % 8) (by simpa using h1)

/-! ## Helper lemmas about key derivation -/

theorem deriveKey_of_ne (s : Bytes) (h : hexDecodePrefix s ≠ []) :
    deriveKey s = hexDecodePrefix s := by
  simp [deriveKey, h]

theorem deriveKey_of_empty (s : Bytes) (h : hexDecodePrefix s = []) :
    deriveKey s = s := by
  simp [deriveKey, h]

theorem validHex_decode_ne (s : Bytes) (h : validHex s = true) (hne : s ≠ []) :
    hexDecodePrefix s ≠ [] := by
  match s with
  | [] => exact absurd rfl hne
  | [a] => simp [validHex] at h
  | a :: b :: rest =>
    simp only [validHex, List.all_cons, Bool.and_eq_true, beq_iff_eq] at h
    obtain ⟨x, hx⟩ := Option.isSome_iff_exists.mp h.2.1
    obtain ⟨y, hy⟩ := Option.isSome_iff_exists.mp h.2.2.1
    simp [hexDecodePrefix, hx, hy]

/-! ## Codec round-trip lemmas -/

theorem bytesToNat_natToBytes (w n : Nat) (h : n < 256 ^ w) :
    bytesToNat (natToBytes w n) = n := by
  induction w generalizing n with
  | zero =>
    interval_cases n
    rfl
  | succ w ih =>
    have hdiv : n / 256 < 256 ^ w := by
      have : 256 ^ (w + 1) = 256 ^ w * 256 := by ring
      omega
    have hfold := ih (n / 256) hdiv
    simp only [natToBytes, bytesToNat] at *
    rw [List.foldl_append]
    simp only [List.foldl_cons, List.foldl_nil]
    rw [hfold]
    omega

theorem readChunk_append (k : Nat) (xs rest : Bytes) (h : xs.length = k) :
    readChunk k (xs ++ rest) = some (xs, rest) := by
  subst h
  simp [readChunk, List.take_left, List.drop_left]

theorem readNat_append (w n : Nat) (rest : Bytes) (h : n < 256 ^ w) :
    readNat w (natToBytes w n ++ rest) = some (n, rest) := by
  unfold readNat
  rw [readChunk_append w (natToBytes w n) rest (natToBytes_length w n)]
  simp [bytesToNat_natToBytes w n h]

theorem readBytesField_append (s rest : Bytes) (h : s.length < 2 ^ 32) :
    readBytesField (encBytesField s ++ rest) = some (s, rest) := by
  unfold readBytesField encBytesField
  rw [List.append_assoc,
    readNat_append 4 s.length (s ++ rest) (by norm_num at h ⊢; omega)]
  simpa using readChunk_append s.length s rest rfl

theorem readInt64_append (i : Int) (rest : Bytes) :
    readNat 8 (encInt64 i ++ rest) = some ((i % (2 ^ 64)).toNat, rest) := by
  unfold encInt64
  have h0 : 0 ≤ i % (2 ^ 64) := Int.emod_nonneg i (by norm_num)
  have h1 : i % (2 ^ 64) < 2 ^ 64 := Int.emod_lt_of_pos i (by norm_num)
  exact readNat_append 8 _ rest (by norm_num; omega)

theorem decInt64_roundtrip (i : Int) (h1 : -(2 ^ 63) ≤ i) (h2 : i < 2 ^ 63) :
    decInt64 ((i % (2 ^ 64)).toNat) = i := by
  unfold decInt64
  have h3 : 0 ≤ i % (2 ^ 64) := Int.emod_nonneg i (by norm_num)
  have h4 : i % (2 ^ 64) < 2 ^ 64 := Int.emod_lt_of_pos i (by norm_num)
  have h5 : i % (2 ^ 64) = i ∨ i % (2 ^ 64) = i + 2 ^ 64 := by omega
  split <;> omega

theorem readInt64_whole (i : Int) :
    readNat 8 (encInt64 i) = some ((i % (2 ^ 64)).toNat, []) := by
  have h := readInt64_append i []
  simpa using h

theorem decodePayload_encodePayload (p : BeaconPayload) (h : validPayload p) :
    decodePayload (encodePayload p) = some p := by
  obtain ⟨hv, ht1, ht2, hmc, hip, hhn, hosn, hosk, hosa, hcpu, hc1, hc2, hmem, hd1, hd2⟩ := h
  unfold decodePayload encodePayload
  simp only [List.append_assoc]
  rw [readNat_append 1 p.version _ (by norm_num; omega)]
  rw [Option.some_bind]
  rw [readInt64_append p.timestamp]
  rw [Option.some_bind]
  rw [readBytesField_append p.macAddress _ hmc]
  rw [Option.some_bind]
  rw [readBytesField_append p.ipAddress _ hip]
  rw [Option.some_bind]
  rw [readBytesField_append p.hostname _ hhn]
  rw [Option.some_bind]
  rw [readBytesField_append p.os.name _ hosn]
  rw [Option.some_bind]
  rw [readBytesField_append p.os.kernel _ hosk]
  rw [Option.some_bind]
  rw [readBytesField_append p.os.arch _ hosa]
  rw [Option.some_bind]
  rw [readBytesField_append p.hardware.cpuModel _ hcpu]
  rw [Option.some_bind]
  rw [readInt64_append p.hardware.cpuCores]
  rw [Option.some_bind]
  rw [readNat_append 8 p.hardware.memoryGB _ (by norm_num; omega)]
  rw [Option.some_bind]
  rw [readInt64_whole p.hardware.diskCount]
  rw [Option.some_bind, if_pos rfl]
  rw [decInt64_roundtrip p.timestamp ht1 ht2,
    decInt64_roundtrip p.hardware.cpuCores hc1 hc2,
    decInt64_roundtrip p.hardware.diskCount hd1 hd2]

theorem encodePayload_length_pos (p : BeaconPayload) :
    0 < (encodePayload p).length := by
  simp only [encodePayload, List.length_append, natToBytes_length]
  omega

theorem encodePayload_ne_nil (p : BeaconPayload) : encodePayload p ≠ [] := by
  have h := encodePayload_length_pos p
  exact fun he => by simp [he] at h

/-! ## Registry lemmas -/

theorem lookupRec_putRec_self (mac : Bytes) (v : HostRecord) (reg : Registry) :
    lookupRec mac (putRec mac v reg) = some v := by
  induction reg with
  | nil => simp [putRec, lookupRec]
  | cons e rest ih =>
    obtain ⟨k, r⟩ := e
    by_cases hk : k = mac
    · simp [putRec, lookupRec, hk]
    · simp [putRec, lookupRec, hk, ih]

theorem lookupRec_putRec_other (mac k2 : Bytes) (v : HostRecord) (reg : Registry)
    (h : k2 ≠ mac) : lookupRec k2 (putRec mac v reg) = lookupRec k2 reg := by
  have h2 : mac ≠ k2 := fun hh => h hh.symm
  induction reg with
  | nil => simp [putRec, lookupRec, h2]
  | cons e rest ih =>
    obtain ⟨k, r⟩ := e
    by_cases hk : k = mac
    · subst hk
      simp [putRec, lookupRec, h2]
    · simp [putRec, lookupRec, hk, ih]

theorem lookupRec_map (f : HostRecord → HostRecord) (mac : Bytes) (reg : Registry) :
    lookupRec mac (reg.map (fun e => (e.1, f e.2))) = (lookupRec mac reg).map f := by
  induction reg with
  | nil => simp [lookupRec]
  | cons e rest ih =>
    obtain ⟨k, r⟩ := e
    by_cases hk : k = mac
    · simp [lookupRec, hk]
    · simp [lookupRec, hk, ih]

theorem upsert_absent (reg : Registry) (p : BeaconPayload) (now : Int)
    (h : lookupRec p.macAddress reg = none) :
    lookupRec p.macAddress (upsert reg p now) =
      some { beacon := p, firstSeen := now, lastSeen := now, packetCount := 1,
             sshKeyPushed := false, sshKeyPushedAt := none, active := true } := by
  unfold upsert
  rw [h]
  exact lookupRec_putRec_self _ _ _

theorem upsert_present (reg : Registry) (p : BeaconPayload) (now : Int)
    (r : HostRecord) (h : lookupRec p.macAddress reg = some r) :
    lookupRec p.macAddress (upsert reg p now) =
      some { r with beacon := p, lastSeen := now,
                    packetCount := r.packetCount + 1, active := true } := by
  unfold upsert
  rw [h]
  exact lookupRec_putRec_self _ _ _

theorem upsert_other (reg : Registry) (p : BeaconPayload) (now : Int) (k : Bytes)
    (h : k ≠ p.macAddress) :
    lookupRec k (upsert reg p now) = lookupRec k reg := by
  unfold upsert
  cases lookupRec p.macAddress reg with
  | none => exact lookupRec_putRec_other _ _ _ _ h
  | some r => exact lookupRec_putRec_other _ _ _ _ h

theorem upsertRun_present (events : List (BeaconPayload × Int)) (reg : Registry)
    (mac : Bytes) (r : HostRecord) (h : lookupRec mac reg = some r)
    (hmac : ∀ e ∈ events, e.1.macAddress = mac) :
    ∃ rr, lookupRec mac (upsertRun reg events) = some rr ∧
      rr.packetCount = r.packetCount + events.length ∧
      rr.lastSeen = (events.map Prod.snd).getLastD r.lastSeen ∧
      rr.firstSeen = r.firstSeen ∧
      rr.active = (if events.isEmpty then r.active else true) := by
  induction events generalizing reg r with
  | nil => exact ⟨r, h, by simp, by simp, rfl, by simp⟩
  | cons e es ih =>
    have hm : e.1.macAddress = mac := hmac e (by simp)
    have hstep : lookupRec mac (upsert reg e.1 e.2) =
        some { r with beacon := e.1, lastSeen := e.2,
                      packetCount := r.packetCount + 1, active := true } := by
      rw [← hm] at h ⊢
      exact upsert_present reg e.1 e.2 r h
    obtain ⟨rr, h1, h2, h3, h4, h5⟩ :=
      ih (upsert reg e.1 e.2) _ hstep (fun x hx => hmac x (by simp [hx]))
    refine ⟨rr, ?_, ?_, ?_, ?_, ?_⟩
    · simpa [upsertRun, List.foldl_cons] using h1
    · simp at h2
      simp [h2]
      omega
    · rw [List.map_cons, List.getLastD_cons]
      exact h3
    · simpa using h4
    · simp at h5
      simp [h5]

theorem markKeyPushed_absent (reg : Registry) (mac : Bytes) (now : Int)
    (h : lookupRec mac reg = none) :
    markKeyPushed reg mac now = .error "host not found" := by
  unfold markKeyPushed
  rw [h]

theorem markKeyPushed_present (reg : Registry) (mac : Bytes) (now : Int)
    (r : HostRecord) (h : lookupRec mac reg = some r) :
    markKeyPushed reg mac now =
      .ok (putRec mac { r with sshKeyPushed := true, sshKeyPushedAt := some now } reg) := by
  unfold markKeyPushed
  rw [h]

theorem expireStaleHosts_lookup (reg : Registry) (now threshold : Int) (mac : Bytes) :
    lookupRec mac (expireStaleHosts reg now threshold) =
      (lookupRec mac reg).map (expireRecord now threshold) :=
  lookupRec_map (expireRecord now threshold) mac reg

theorem specExpire_lookup (reg : Registry) (now threshold : Int) (mac : Bytes) :
    lookupRec mac (specExpire reg now threshold) =
      (lookupRec mac reg).map (specExpireRecord now threshold) :=
  lookupRec_map (specExpireRecord now threshold) mac reg

theorem expireStaleHosts_id (reg : Registry) (now threshold : Int)
    (h : ∀ e ∈ reg, now - e.2.lastSeen < threshold) :
    expireStaleHosts reg now threshold = reg := by
  induction reg with
  | nil => rfl
  | cons e rest ih =>
    have he : now - e.2.lastSeen < threshold := h e (by simp)
    have hrec : expireRecord now threshold e.2 = e.2 := by
      unfold expireRecord
      rw [if_neg]
      rintro ⟨-, hlt⟩
      omega
    have htl : expireStaleHosts rest now threshold = rest :=
      ih (fun x hx => h x (by simp [hx]))
    simp only [expireStaleHosts, List.map_cons] at htl ⊢
    rw [hrec, htl]

theorem expireRecord_packetCount (now threshold : Int) (r : HostRecord) :
    (expireRecord now threshold r).packetCount = r.packetCount := by
  unfold expireRecord
  split <;> rfl

theorem expireRecord_firstSeen (now threshold : Int) (r : HostRecord) :
    (expireRecord now threshold r).firstSeen = r.firstSeen := by
  unfold expireRecord
  split <;> rfl

theorem applyOp_present (reg : Registry) (op : StoreOp) (mac : Bytes)
    (r : HostRecord) (h : lookupRec mac reg = some r) :
    ∃ rr, lookupRec mac (applyOp reg op) = some rr ∧
      rr.packetCount = r.packetCount + (if isUpsertFor op mac then 1 else 0) ∧
      rr.firstSeen = r.firstSeen := by
  cases op with
  | upsertOp p now =>
    by_cases hm : p.macAddress = mac
    · subst hm
      refine ⟨_, upsert_present reg p now r h, ?_, rfl⟩
      simp [isUpsertFor]
    · have hne : mac ≠ p.macAddress := fun hh => hm hh.symm
      refine ⟨r, ?_, ?_, rfl⟩
      · show lookupRec mac (upsert reg p now) = some r
        rw [upsert_other reg p now mac hne]
        exact h
      · simp [isUpsertFor, hm]
  | markKeyOp mk now =>
    show ∃ rr, lookupRec mac
        (match markKeyPushed reg mk now with
         | .ok reg2 => reg2 | .error _ => reg) = some rr ∧ _
    cases hlk : lookupRec mk reg with
    | none =>
      rw [markKeyPushed_absent reg mk now hlk]
      exact ⟨r, h, by simp [isUpsertFor], rfl⟩
    | some r2 =>
      rw [markKeyPushed_present reg mk now r2 hlk]
      by_cases hm : mac = mk
      · subst hm
        have hr : r2 = r := by
          rw [hlk] at h
          exact Option.some_injective _ h
        subst hr
        refine ⟨_, lookupRec_putRec_self _ _ _, ?_, rfl⟩
        simp [isUpsertFor]
      · refine ⟨r, ?_, ?_, rfl⟩
        · rw [lookupRec_putRec_other mk mac _ reg hm]
          exact h
        · simp [isUpsertFor]
  | expireOp now threshold =>
    refine ⟨expireRecord now threshold r, ?_, ?_, ?_⟩
    · show lookupRec mac (expireStaleHosts reg now threshold) = _
      rw [expireStaleHosts_lookup, h]
      rfl
    · rw [expireRecord_packetCount]
      simp [isUpsertFor]
    · exact expireRecord_firstSeen now threshold r

/-! ## Validator evaluation lemmas for well-formed signed packets -/

theorem listenerHandlePacket_signed (p : BeaconPayload) (now : Int) (secret : Bytes)
    (hp : validPayload p) :
    Listener.handlePacket (ComputeHMAC (encodePayload p) secret ++ encodePayload p)
        now secret =
      (if timestampMaxAge < |now - p.timestamp| then .dropStale else .accepted p) := by
  have hlen := computeHMAC_length (encodePayload p) secret
  have hpos := encodePayload_length_pos p
  have hsz : ¬ ((ComputeHMAC (encodePayload p) secret ++ encodePayload p).length
      ≤ HMACSize) := by
    rw [List.length_append, hlen]
    simp only [HMACSize]
    omega
  have ht : (ComputeHMAC (encodePayload p) secret ++ encodePayload p).take HMACSize
      = ComputeHMAC (encodePayload p) secret := by
    rw [show HMACSize = (ComputeHMAC (encodePayload p) secret).length from hlen.symm]
    exact List.take_left _ _
  have hd : (ComputeHMAC (encodePayload p) secret ++ encodePayload p).drop HMACSize
      = encodePayload p := by
    rw [show HMACSize = (ComputeHMAC (encodePayload p) secret).length from hlen.symm]
    exact List.drop_left _ _
  unfold Listener.handlePacket
  rw [if_neg hsz, ht, hd]
  simp [verifyHMAC_computeHMAC, decodePayload_encodePayload p hp]

theorem discoveryHandlePacket_signed (p : BeaconPayload) (now : Int)
    (selfM secret : Bytes) (hp : validPayload p) :
    Discovery.handlePacket (ComputeHMAC (encodePayload p) secret ++ encodePayload p)
        now selfM secret =
      (if p.macAddress = selfM then .dropSelf
       else if timestampMaxAge < |now - p.timestamp| then .dropStale
       else .accepted p) := by
  have hlen := computeHMAC_length (encodePayload p) secret
  have hpos := encodePayload_length_pos p
  have hsz : ¬ ((ComputeHMAC (encodePayload p) secret ++ encodePayload p).length
      ≤ HMACSize) := by
    rw [List.length_append, hlen]
    simp only [HMACSize]
    omega
  have ht : (ComputeHMAC (encodePayload p) secret ++ encodePayload p).take HMACSize
      = ComputeHMAC (encodePayload p) secret := by
    rw [show HMACSize = (ComputeHMAC (encodePayload p) secret).length from hlen.symm]
    exact List.take_left _ _
  have hd : (ComputeHMAC (encodePayload p) secret ++ encodePayload p).drop HMACSize
      = encodePayload p := by
    rw [show HMACSize = (ComputeHMAC (encodePayload p) secret).length from hlen.symm]
    exact List.drop_left _ _
  unfold Discovery.handlePacket
  rw [if_neg hsz, ht, hd]
  simp [verifyHMAC_computeHMAC, decodePayload_encodePayload p hp]

theorem claimValidator_signed (p : BeaconPayload) (now : Int)
    (selfM secret : Bytes) (hp : validPayload p) :
    claimValidator (ComputeHMAC (encodePayload p) secret ++ encodePayload p)
        now selfM secret =
      (if timestampMaxAge < |now - p.timestamp| then .dropStale
       else if p.macAddress = selfM then .dropSelf
       else .accepted p) := by
  have hlen := computeHMAC_length (encodePayload p) secret
  have hpos := encodePayload_length_pos p
  have hsz : ¬ ((ComputeHMAC (encodePayload p) secret ++ encodePayload p).length
      ≤ HMACSize) := by
    rw [List.length_append, hlen]
    simp only [HMACSize]
    omega
  have ht : (ComputeHMAC (encodePayload p) secret ++ encodePayload p).take HMACSize
      = ComputeHMAC (encodePayload p) secret := by
    rw [show HMACSize = (ComputeHMAC (encodePayload p) secret).length from hlen.symm]
    exact List.take_left _ _
  have hd : (ComputeHMAC (encodePayload p) secret ++ encodePayload p).drop HMACSize
      = encodePayload p := by
    rw [show HMACSize = (ComputeHMAC (encodePayload p) secret).length from hlen.symm]
    exact List.drop_left _ _
  unfold claimValidator
  rw [if_neg hsz, ht, hd]
  simp [verifyHMAC_computeHMAC, decodePayload_encodePayload p hp]

theorem applyOps_present (ops : List StoreOp) (reg : Registry) (mac : Bytes)
    (r : HostRecord) (h : lookupRec mac reg = some r) :
    ∃ rr, lookupRec mac (applyOps reg ops) = some rr ∧
      r.packetCount ≤ rr.packetCount ∧
      rr.firstSeen = r.firstSeen := by
  induction ops generalizing reg r with
  | nil => exact ⟨r, h, le_refl _, rfl⟩
  | cons op ops ih =>
    obtain ⟨r1, h1, h2, h3⟩ := applyOp_present reg op mac r h
    obtain ⟨rr, g1, g2, g3⟩ := ih (applyOp reg op) r1 h1
    refine ⟨rr, ?_, ?_, ?_⟩
    · simpa [applyOps, List.foldl_cons] using g1
    · omega
    · rw [g3, h3]

/-! ## Claim theorems -/

/-- C1: the claim says every inbound datagram increments a per-source counter
before validation and that a post-increment count above 5 per minute is
dropped before any validator check; the current listener receive loop never
consults the declared rate tracker, so the sixth validly signed datagram from
one source within a minute is still validated, accepted and upserted: after
six receptions of the same packet the registry record has PacketCount 6,
although 6 exceeds maxPacketsPerMin. -/
theorem claim_C1_rate_limit_missing :
    Listener.handlePacket samplePacket 100 sampleSecret = .accepted samplePayload ∧
    (lookupRec samplePayload.macAddress regSix).map (fun r => r.packetCount) =
      some 6 ∧
    maxPacketsPerMin < 6 := by
  have hhp : Listener.handlePacket samplePacket 100 sampleSecret =
      .accepted samplePayload := by
    rw [show samplePacket =
        ComputeHMAC (encodePayload samplePayload) sampleSecret ++
          encodePayload samplePayload from rfl]
    rw [listenerHandlePacket_signed samplePayload 100 sampleSecret (by decide)]
    decide
  have hstep : ∀ rg, Listener.receiveStep rg samplePacket 100 sampleSecret =
      upsert rg samplePayload 100 := by
    intro rg
    unfold Listener.receiveStep
    rw [hhp]
  refine ⟨hhp, ?_, by decide⟩
  show (lookupRec samplePayload.macAddress regSix).map (fun r => r.packetCount) =
    some 6
  unfold regSix
  simp only [hstep]
  decide

/-- C2 counterexample: on a validly signed packet that is both self-originated
and stale, the discovery validator drops it at the self-origin check while the
validator of the claim, which puts the freshness bound fourth and the
self-origin check fifth, drops it at the freshness check, so the claimed order
is not the order of the code. -/
theorem claim_C2_counterexample :
    Discovery.handlePacket stalePacket 1000 samplePayload.macAddress sampleSecret =
      .dropSelf ∧
    claimValidator stalePacket 1000 samplePayload.macAddress sampleSecret =
      .dropStale ∧
    Discovery.handlePacket stalePacket 1000 samplePayload.macAddress sampleSecret ≠
      claimValidator stalePacket 1000 samplePayload.macAddress sampleSecret := by
  have h1 : Discovery.handlePacket stalePacket 1000 samplePayload.macAddress
      sampleSecret = .dropSelf := by
    rw [show stalePacket =
        ComputeHMAC (encodePayload stalePayload) sampleSecret ++
          encodePayload stalePayload from rfl]
    rw [discoveryHandlePacket_signed stalePayload 1000 samplePayload.macAddress
      sampleSecret (by decide)]
    decide
  have h2 : claimValidator stalePacket 1000 samplePayload.macAddress
      sampleSecret = .dropStale := by
    rw [show stalePacket =
        ComputeHMAC (encodePayload stalePayload) sampleSecret ++
          encodePayload stalePayload from rfl]
    rw [claimValidator_signed stalePayload 1000 samplePayload.macAddress
      sampleSecret (by decide)]
    decide
  refine ⟨h1, h2, ?_⟩
  rw [h1, h2]
  decide

/-- C2, amended: the discovery validator applies exactly the five
short-circuiting silent-drop checks of the claim, but with the self-origin
suppression applied before the freshness bound; it coincides with the amended
pipeline on every input and returns the decoded payload on full acceptance. -/
theorem claim_C2_validator_order (packet : Bytes) (now : Int)
    (selfM secret : Bytes) :
    Discovery.handlePacket packet now selfM secret =
      amendedValidator packet now selfM secret := rfl

/-- C3: Upsert creates a record with FirstSeen = LastSeen = now,
PacketCount = 1 and Active = true when the MAC is absent; on an existing
record it sets LastSeen = now, adds exactly 1 to PacketCount, sets
Active = true unconditionally and replaces the beacon snapshot; and N
consecutive upserts of the same MAC from an empty registry leave
PacketCount = N, LastSeen = the time of the most recent call and
Active = true. -/
theorem claim_C3_upsert :
    (∀ (reg : Registry) (p : BeaconPayload) (now : Int),
       lookupRec p.macAddress reg = none →
       lookupRec p.macAddress (upsert reg p now) =
         some { beacon := p, firstSeen := now, lastSeen := now, packetCount := 1,
                sshKeyPushed := false, sshKeyPushedAt := none, active := true }) ∧
    (∀ (reg : Registry) (p : BeaconPayload) (now : Int) (r : HostRecord),
       lookupRec p.macAddress reg = some r →
       lookupRec p.macAddress (upsert reg p now) =
         some { r with beacon := p, lastSeen := now,
                       packetCount := r.packetCount + 1, active := true }) ∧
    (∀ (events : List (BeaconPayload × Int)) (mac : Bytes),
       events ≠ [] → (∀ e ∈ events, e.1.macAddress = mac) →
       ∃ rr, lookupRec mac (upsertRun [] events) = some rr ∧
         rr.packetCount = events.length ∧
         rr.lastSeen = (events.map Prod.snd).getLastD 0 ∧
         rr.active = true) := by
  refine ⟨upsert_absent, upsert_present, ?_⟩
  intro events mac hne hmac
  match events with
  | [] => exact absurd rfl hne
  | e :: es =>
    have hm : e.1.macAddress = mac := hmac e (by simp)
    have h0 : lookupRec mac (upsert [] e.1 e.2) =
        some { beacon := e.1, firstSeen := e.2, lastSeen := e.2, packetCount := 1,
               sshKeyPushed := false, sshKeyPushedAt := none, active := true } := by
      rw [← hm]
      exact upsert_absent [] e.1 e.2 rfl
    obtain ⟨rr, h1, h2, h3, h4, h5⟩ :=
      upsertRun_present es (upsert [] e.1 e.2) mac _ h0
        (fun x hx => hmac x (by simp [hx]))
    refine ⟨rr, ?_, ?_, ?_, ?_⟩
    · simpa [upsertRun, List.foldl_cons] using h1
    · simp at h2 ⊢
      omega
    · rw [List.map_cons, List.getLastD_cons]
      exact h3
    · simpa using h5

/-- Witness for C3 at concrete inputs: creation on an empty registry, the
update of an existing record, and a run of two upserts of the sample MAC. -/
theorem claim_C3_upsert_witness :
    lookupRec samplePayload.macAddress (upsert [] samplePayload 100) =
      some { beacon := samplePayload, firstSeen := 100, lastSeen := 100,
             packetCount := 1, sshKeyPushed := false, sshKeyPushedAt := none,
             active := true } ∧
    lookupRec samplePayload.macAddress (upsert regMac samplePayload 200) =
      some { sampleRecord with beacon := samplePayload, lastSeen := 200,
                               packetCount := sampleRecord.packetCount + 1,
                               active := true } ∧
    (lookupRec samplePayload.macAddress
        (upsertRun [] [(samplePayload, 100), (samplePayload, 200)])).map
      (fun r => (r.packetCount, r.lastSeen, r.active)) = some (2, 200, true) := by
  refine ⟨claim_C3_upsert.1 [] samplePayload 100 (by decide),
    claim_C3_upsert.2.1 regMac samplePayload 200 sampleRecord (by decide), ?_⟩
  obtain ⟨rr, h1, h2, h3, h4⟩ :=
    claim_C3_upsert.2.2 [(samplePayload, 100), (samplePayload, 200)]
      samplePayload.macAddress (by decide) (by decide)
  have e3 : (([(samplePayload, (100 : Int)), (samplePayload, 200)].map
      Prod.snd).getLastD 0) = 200 := by decide
  rw [h1]
  rw [e3] at h3
  simp [h2, h3, h4]

/-- C4 counterexample: the claim says a sweep with threshold 0 marks every
currently Active record Inactive; on a record whose LastSeen equals the sweep
time the code leaves the record Active, because the code expires only records
with now - LastSeen strictly greater than the threshold while the claim asks
for at least. -/
theorem claim_C4_counterexample :
    (lookupRec [1] (expireStaleHosts regOne 100 0)).map (fun r => r.active) =
      some true ∧
    (lookupRec [1] (specExpire regOne 100 0)).map (fun r => r.active) =
      some false := by
  constructor <;> decide

/-- C4, amended: a sweep sets Active = false for exactly the Active records
with now - LastSeen strictly greater than the threshold (LastSeen strictly
before the cutoff) and changes nothing else: present keys map to the
per-record rule, absent keys stay absent, and when the threshold exceeds every
elapsed time the sweep is the identity. -/
theorem claim_C4_expiry :
    (∀ (reg : Registry) (now threshold : Int) (mac : Bytes) (r : HostRecord),
       lookupRec mac reg = some r →
       lookupRec mac (expireStaleHosts reg now threshold) =
         some (if r.active ∧ r.lastSeen < now - threshold then
                 { r with active := false } else r)) ∧
    (∀ (reg : Registry) (now threshold : Int) (mac : Bytes),
       lookupRec mac reg = none →
       lookupRec mac (expireStaleHosts reg now threshold) = none) ∧
    (∀ (reg : Registry) (now threshold : Int),
       (∀ e ∈ reg, now - e.2.lastSeen < threshold) →
       expireStaleHosts reg now threshold = reg) := by
  refine ⟨?_, ?_, expireStaleHosts_id⟩
  · intro reg now th mac r h
    rw [expireStaleHosts_lookup, h]
    rfl
  · intro reg now th mac h
    rw [expireStaleHosts_lookup, h]
    rfl

/-- Witness for C4 at concrete inputs: a stale record is expired, an absent
key stays absent, and a sweep whose threshold exceeds the elapsed time leaves
the registry unchanged. -/
theorem claim_C4_expiry_witness :
    lookupRec [1] (expireStaleHosts regOne 200 50) =
      some (if sampleRecord.active ∧ sampleRecord.lastSeen < 200 - 50 then
              { sampleRecord with active := false } else sampleRecord) ∧
    lookupRec [9] (expireStaleHosts regOne 200 50) = none ∧
    expireStaleHosts regOne 100 200 = regOne :=
  ⟨claim_C4_expiry.1 regOne 200 50 [1] sampleRecord (by decide),
   claim_C4_expiry.2.1 regOne 200 50 [9] (by decide),
   claim_C4_expiry.2.2 regOne 100 200 (by decide)⟩

/-- C5 counterexample: the claim says verification with a different secret
string always fails, but the key derivation maps the hex secret [48, 48]
(the two characters 0 0) and the one-byte raw secret [0] to the same HMAC key,
so a signature produced under the first secret verifies under the second. -/
theorem claim_C5_counterexample :
    ([48, 48] : Bytes) ≠ [0] ∧
    VerifyHMAC (ComputeHMAC [1, 2, 3] [48, 48]) [1, 2, 3] [0] = true := by
  refine ⟨by decide, ?_⟩
  have hk : deriveKey [48, 48] = deriveKey [0] := by decide
  simp [VerifyHMAC, ComputeHMAC, hk]

/-- C5, amended: for all data and secrets, verify of sign is true; flipping
any single bit of the signature makes verify false; truncating the signature
makes verify false. The data-flip clause is a collision-resistance property of
the hash and the different-secret clause fails on the key derivation, so
both are outside this statement. -/
theorem claim_C5_signature :
    (∀ data secret : Bytes,
       VerifyHMAC (ComputeHMAC data secret) data secret = true) ∧
    (∀ (data secret : Bytes) (i : Nat), i < 8 * HMACSize →
       VerifyHMAC (flipBitAt (ComputeHMAC data secret) i) data secret = false) ∧
    (∀ (data secret : Bytes) (k : Nat), k < HMACSize →
       VerifyHMAC ((ComputeHMAC data secret).take k) data secret = false) := by
  refine ⟨verifyHMAC_computeHMAC, ?_, ?_⟩
  · intro data secret i hi
    apply verifyHMAC_ne
    apply flipBitAt_ne
    rw [computeHMAC_length]
    simp only [HMACSize] at hi
    omega
  · intro data secret k hk
    apply verifyHMAC_ne
    intro he
    have hlen : ((ComputeHMAC data secret).take k).length =
        (ComputeHMAC data secret).length := by rw [he]
    rw [List.length_take, computeHMAC_length] at hlen
    simp only [HMACSize] at hk
    omega

/-- Witness for C5 at concrete inputs. -/
theorem claim_C5_signature_witness :
    VerifyHMAC (ComputeHMAC [1, 2] [3]) [1, 2] [3] = true ∧
    (0 < 8 * HMACSize ∧
      VerifyHMAC (flipBitAt (ComputeHMAC [1, 2] [3]) 0) [1, 2] [3] = false) ∧
    (5 < HMACSize ∧
      VerifyHMAC ((ComputeHMAC [1, 2] [3]).take 5) [1, 2] [3] = false) :=
  ⟨claim_C5_signature.1 [1, 2] [3],
   ⟨by decide, claim_C5_signature.2.1 [1, 2] [3] 0 (by decide)⟩,
   ⟨by decide, claim_C5_signature.2.2 [1, 2] [3] 5 (by decide)⟩⟩

/-- C6 counterexample: the claim says any secret that is not valid hex keys
the HMAC with its raw string bytes; the secret [49, 49, 122, 122] (the four
characters 1 1 z z) is not valid hex, yet the code keys the HMAC with the
decoded prefix [17] rather than the raw bytes, because the hex decode error is
ignored and only an empty decode falls back to the raw secret. -/
theorem claim_C6_counterexample :
    deriveKey [49, 49, 122, 122] = [17] ∧
    specKeyDerivation [49, 49, 122, 122] = [49, 49, 122, 122] ∧
    deriveKey [49, 49, 122, 122] ≠ specKeyDerivation [49, 49, 122, 122] :=
  ⟨by decide, by decide, by decide⟩

/-- C6, amended: a valid hex secret keys the HMAC with its decoded bytes; a
secret whose decoded pair prefix is nonempty keys it with that prefix; the
raw secret bytes are used exactly when the decoded prefix is empty; and the
derivation is deterministic and shared by the signing and verifying sides, so
verify of sign always succeeds. -/
theorem claim_C6_key_derivation :
    (∀ s : Bytes, validHex s = true → deriveKey s = hexDecodePrefix s) ∧
    (∀ s : Bytes, hexDecodePrefix s ≠ [] → deriveKey s = hexDecodePrefix s) ∧
    (∀ s : Bytes, hexDecodePrefix s = [] → deriveKey s = s) ∧
    (∀ data secret : Bytes,
       VerifyHMAC (ComputeHMAC data secret) data secret = true) := by
  refine ⟨?_, deriveKey_of_ne, deriveKey_of_empty, verifyHMAC_computeHMAC⟩
  intro s h
  by_cases hs : s = []
  · subst hs
    decide
  · exact deriveKey_of_ne s (validHex_decode_ne s h hs)

/-- Witness for C6 at concrete inputs. -/
theorem claim_C6_key_derivation_witness :
    (validHex [48, 48] = true ∧ deriveKey [48, 48] = hexDecodePrefix [48, 48]) ∧
    (hexDecodePrefix [49, 49, 122, 122] ≠ [] ∧
      deriveKey [49, 49, 122, 122] = hexDecodePrefix [49, 49, 122, 122]) ∧
    (hexDecodePrefix [122] = [] ∧ deriveKey [122] = [122]) ∧
    VerifyHMAC (ComputeHMAC [7] [48, 48]) [7] [48, 48] = true :=
  ⟨⟨by decide, claim_C6_key_derivation.1 [48, 48] (by decide)⟩,
   ⟨by decide, claim_C6_key_derivation.2.1 [49, 49, 122, 122] (by decide)⟩,
   ⟨by decide, claim_C6_key_derivation.2.2.1 [122] (by decide)⟩,
   claim_C6_key_derivation.2.2.2 [7] [48, 48]⟩

/-- C7: decoding the encoding of any valid payload returns the payload, field
for field, nested descriptors included. -/
theorem claim_C7_roundtrip (p : BeaconPayload) (h : validPayload p) :
    decodePayload (encodePayload p) = some p :=
  decodePayload_encodePayload p h

/-- Witness for C7 at the sample payload. -/
theorem claim_C7_roundtrip_witness :
    validPayload samplePayload ∧
    decodePayload (encodePayload samplePayload) = some samplePayload :=
  ⟨by decide, claim_C7_roundtrip samplePayload (by decide)⟩

/-- C8: across any sequence of registry operations an existing record keeps
its FirstSeen forever and its PacketCount never decreases, and a single
operation adds exactly 1 to the PacketCount when it is an upsert for that MAC
and 0 otherwise. -/
theorem claim_C8_invariants :
    (∀ (reg : Registry) (op : StoreOp) (mac : Bytes) (r : HostRecord),
       lookupRec mac reg = some r →
       ∃ rr, lookupRec mac (applyOp reg op) = some rr ∧
         rr.packetCount = r.packetCount + (if isUpsertFor op mac then 1 else 0) ∧
         rr.firstSeen = r.firstSeen) ∧
    (∀ (ops : List StoreOp) (reg : Registry) (mac : Bytes) (r : HostRecord),
       lookupRec mac reg = some r →
       ∃ rr, lookupRec mac (applyOps reg ops) = some rr ∧
         r.packetCount ≤ rr.packetCount ∧ rr.firstSeen = r.firstSeen) :=
  ⟨applyOp_present, applyOps_present⟩

/-- Witness for C8 at concrete inputs. -/
theorem claim_C8_invariants_witness :
    (∃ rr, lookupRec [1] (applyOp regOne (.upsertOp samplePayload 300)) =
        some rr ∧
      rr.packetCount = sampleRecord.packetCount +
        (if isUpsertFor (.upsertOp samplePayload 300) [1] then 1 else 0) ∧
      rr.firstSeen = sampleRecord.firstSeen) ∧
    (∃ rr, lookupRec [1]
        (applyOps regOne [.expireOp 500 10, .markKeyOp [1] 600]) = some rr ∧
      sampleRecord.packetCount ≤ rr.packetCount ∧
      rr.firstSeen = sampleRecord.firstSeen) :=
  ⟨claim_C8_invariants.1 regOne (.upsertOp samplePayload 300) [1] sampleRecord
     (by decide),
   claim_C8_invariants.2 [.expireOp 500 10, .markKeyOp [1] 600] regOne [1]
     sampleRecord (by decide)⟩

/-- C9: MarkKeyPushed on an absent MAC returns the not-found error and its
transaction leaves the registry unchanged; on an existing MAC it succeeds,
setting SSHKeyPushed to true and SSHKeyPushedAt to the non-null current time. -/
theorem claim_C9_mark_key :
    (∀ (reg : Registry) (mac : Bytes) (now : Int),
       lookupRec mac reg = none →
       markKeyPushed reg mac now = .error "host not found" ∧
       applyOp reg (.markKeyOp mac now) = reg) ∧
    (∀ (reg : Registry) (mac : Bytes) (now : Int) (r : HostRecord),
       lookupRec mac reg = some r →
       ∃ reg2, markKeyPushed reg mac now = .ok reg2 ∧
         lookupRec mac reg2 =
           some { r with sshKeyPushed := true, sshKeyPushedAt := some now } ∧
         ({ r with sshKeyPushed := true,
                   sshKeyPushedAt := some now } : HostRecord).sshKeyPushedAt ≠
           none) := by
  constructor
  · intro reg mac now h
    refine ⟨markKeyPushed_absent reg mac now h, ?_⟩
    show (match markKeyPushed reg mac now with
          | .ok reg2 => reg2 | .error _ => reg) = reg
    rw [markKeyPushed_absent reg mac now h]
  · intro reg mac now r h
    exact ⟨_, markKeyPushed_present reg mac now r h,
      lookupRec_putRec_self _ _ _, by simp⟩

/-- Witness for C9 at concrete inputs. -/
theorem claim_C9_mark_key_witness :
    (markKeyPushed regOne [9] 700 = .error "host not found" ∧
     applyOp regOne (.markKeyOp [9] 700) = regOne) ∧
    (∃ reg2, markKeyPushed regOne [1] 700 = .ok reg2 ∧
       lookupRec [1] reg2 =
         some { sampleRecord with sshKeyPushed := true,
                                  sshKeyPushedAt := some 700 } ∧
       ({ sampleRecord with sshKeyPushed := true,
                            sshKeyPushedAt := some 700 } :
           HostRecord).sshKeyPushedAt ≠ none) :=
  ⟨claim_C9_mark_key.1 regOne [9] 700 (by decide),
   claim_C9_mark_key.2 regOne [1] 700 sampleRecord (by decide)⟩

/-- C10: a successful MarkKeyPushed rewrites only the two SSH key fields of
the addressed record, every other field of that record is taken unchanged from
the previous value, and records under every other MAC are untouched. -/
theorem claim_C10_frame :
    ∀ (reg : Registry) (mac : Bytes) (now : Int) (r : HostRecord),
      lookupRec mac reg = some r →
      ∃ reg2, markKeyPushed reg mac now = .ok reg2 ∧
        lookupRec mac reg2 =
          some { r with sshKeyPushed := true, sshKeyPushedAt := some now } ∧
        ∀ k, k ≠ mac → lookupRec k reg2 = lookupRec k reg := by
  intro reg mac now r h
  refine ⟨_, markKeyPushed_present reg mac now r h,
    lookupRec_putRec_self _ _ _, ?_⟩
  intro k hk
  exact lookupRec_putRec_other mac k _ reg hk

/-- Witness for C10 at a two-record registry: the untouched second record is
looked up unchanged. -/
theorem claim_C10_frame_witness :
    ∃ reg2, markKeyPushed regTwo [1] 800 = .ok reg2 ∧
      lookupRec [1] reg2 =
        some { sampleRecord with sshKeyPushed := true,
                                 sshKeyPushedAt := some 800 } ∧
      lookupRec [2] reg2 = lookupRec [2] regTwo := by
  obtain ⟨reg2, h1, h2, h3⟩ := claim_C10_frame regTwo [1] 800 sampleRecord
    (by decide)
  exact ⟨reg2, h1, h2, h3 [2] (by decide)⟩

end Lanmon
